import Mathlib

/-!
# Verification of the theme-resolver-per-day resolution engine

Shallow embedding of `src/resolver.ts`: civil-date arithmetic modelling the
JavaScript `Date` calendar fields (timezone-naive, as the spec prescribes),
the four date-rule evaluators, the Easter calculator, the duration
estimator, and the resolution engine with its stable duration sort and
`everyday` fallback policy.

JavaScript numbers are modelled as `Int` (with `Int.fdiv` for `Math.floor`
division and `Int.tmod` for the `%` operator), durations as
`Option (WithTop Int)` where `none` stands for `NaN` (malformed rule data)
and `⊤` for `Infinity`.  The rule catalog (`themeRules.json`) is injected
as an explicit `ThemeRulesConfig` argument, mirroring the engine's use of
a static immutable catalog.
-/

namespace ThemeResolver

/-- A timezone-naive civil date: the (`getFullYear`, `getMonth()+1`,
`getDate`) calendar fields of a JavaScript `Date`. -/
structure CivilDate where
  year : Int
  month : Nat
  day : Nat
deriving DecidableEq, Repr

/-- Days since 1970-01-01 of a civil date (Gregorian, proleptic); the
day-resolution timestamp of a JavaScript `Date` at local midnight. -/
def daysFromCivil (y m d : Int) : Int :=
  let y2 : Int := y - (if m ≤ 2 then 1 else 0)
  let era : Int := y2.fdiv 400
  let yoe : Int := y2 - era * 400
  let mp : Int := (m + 9).emod 12
  let doy : Int := (153 * mp + 2).fdiv 5 + d - 1
  let doe : Int := yoe * 365 + yoe.fdiv 4 - yoe.fdiv 100 + doy
  era * 146097 + doe - 719468

/-- Inverse of `daysFromCivil`: the (year, month, day) calendar fields of
the day with the given epoch number. -/
def civilFromDays (z0 : Int) : Int × Int × Int :=
  let z : Int := z0 + 719468
  let era : Int := z.fdiv 146097
  let doe : Int := z - era * 146097
  let yoe : Int := (doe - doe.fdiv 1460 + doe.fdiv 36524 - doe.fdiv 146096).fdiv 365
  let y : Int := yoe + era * 400
  let doy : Int := doe - (365 * yoe + yoe.fdiv 4 - yoe.fdiv 100)
  let mp : Int := (5 * doy + 2).fdiv 153
  let d : Int := doy - (153 * mp + 2).fdiv 5 + 1
  let m : Int := mp + (if mp < 10 then 3 else -9)
  (y + (if m ≤ 2 then 1 else 0), m, d)

/-- The epoch-day number of `new Date(y, m1 - 1, d)` (`m1` is the 1-based
month): ECMAScript `MakeDay`, which normalises an out-of-range month into
the year and an out-of-range day across month boundaries. -/
def jsMakeDay (y m1 d : Int) : Int :=
  daysFromCivil (y + (m1 - 1).fdiv 12) ((m1 - 1).emod 12 + 1) d

/-- Epoch-day number of a civil date. -/
def dateToDays (dt : CivilDate) : Int :=
  daysFromCivil dt.year dt.month dt.day

/-- Weekday of an epoch day, as `Date.prototype.getDay`: 0 = Sunday … 6 = Saturday (1970-01-01 was a
Thursday, day 4). -/
def weekdayOfDays (days : Int) : Int :=
  (days + 4).emod 7

/-- Gregorian leap-year test. -/
def isLeapYear (y : Int) : Bool :=
  y.emod 4 == 0 && (y.emod 100 != 0 || y.emod 400 == 0)

/-- Number of days in a month; 0 for a month index outside 1–12 (the
source's scan breaks immediately once `new Date` normalises into another
month, which a 0 length reproduces). -/
def daysInMonth (y : Int) (m : Nat) : Nat :=
  match m with
  | 1 => 31
  | 2 => if isLeapYear y then 29 else 28
  | 3 => 31
  | 4 => 30
  | 5 => 31
  | 6 => 30
  | 7 => 31
  | 8 => 31
  | 9 => 30
  | 10 => 31
  | 11 => 30
  | 12 => 31
  | _ => 0

/-- Lexicographic `≤` on character lists; `strLe` below models the
JavaScript `<=` operator on strings (code-unit lexicographic order, which
agrees with code-point order on the ASCII month-day strings involved). -/
def lexLe : List Char → List Char → Bool
  | [], _ => true
  | _ :: _, [] => false
  | c :: cs, d :: ds => if c < d then true else if d < c then false else lexLe cs ds

/-- JavaScript string `<=`. -/
def strLe (a b : String) : Bool :=
  lexLe a.data b.data

/-- Two-digit zero padding, as `String.prototype.padStart(2, '0')`. -/
def pad2 (n : Nat) : String :=
  let s := Nat.repr n
  if s.length < 2 then String.mk (List.replicate (2 - s.length) '0') ++ s else s

/-- The zero-padded `MM-DD` string built from a date's month and day
fields (`isInRange`'s `currentDate`). -/
def mmdd (dt : CivilDate) : String :=
  pad2 dt.month ++ "-" ++ pad2 dt.day

/-- The `isInRange` evaluator from the source: lexicographic window test on `MM-DD`
strings, wrapping across New Year when `from > to`. -/
def isInRange (f t : String) (dt : CivilDate) : Bool :=
  let currentDate := mmdd dt
  if strLe f t then strLe f currentDate && strLe currentDate t
  else strLe f currentDate || strLe currentDate t

/-- The `calculateEaster` function from the source (Gauss/Meeus Gregorian algorithm):
the (month, day) of Easter Sunday.  `Math.floor(x / k)` is `Int.fdiv`,
the JavaScript `%` operator is `Int.tmod`. -/
def calculateEaster (year : Int) : Int × Int :=
  let a := year.tmod 19
  let b := year.fdiv 100
  let c := year.tmod 100
  let d := b.fdiv 4
  let e := b.tmod 4
  let f := (b + 8).fdiv 25
  let g := (b - f + 1).fdiv 3
  let h := (19 * a + b - d - g + 15).tmod 30
  let i := c.fdiv 4
  let k := c.tmod 4
  let l := (32 + 2 * e + 2 * i - h - k).tmod 7
  let m := (a + 11 * h + 22 * l).fdiv 451
  let month := (h + l - 7 * m + 114).fdiv 31
  let day := (h + l - 7 * m + 114).tmod 31 + 1
  (month, day)

/-- Epoch-day number of the `Date` returned by `calculateEaster` (the
source wraps the pair in `new Date(year, month - 1, day)`). -/
def easterDays (year : Int) : Int :=
  let p := calculateEaster year
  jsMakeDay year p.1 p.2

/-- The `isHolidayOffsetActive` evaluator from the source: the holiday's date for the
reference year, shifted by the signed start/end offsets via `setDate`
(calendar-day addition), compared against the target date.  Any holiday
identifier other than `"easter"` falls into the `default` branch and is
inactive. -/
def isHolidayOffsetActive (holiday : String) (startOffset endOffset : Int)
    (dt : CivilDate) (year : Int) : Bool :=
  match holiday with
  | "easter" =>
    let hd := easterDays year
    decide (hd + startOffset ≤ dateToDays dt) && decide (dateToDays dt ≤ hd + endOffset)
  | _ => false

/-- The list of day-of-month numbers in `month` of `year` falling on
`weekday`: the source scans days 1–31 and breaks once `new Date` rolls
into the next month, which is exactly the days `≤ daysInMonth`. -/
def nthWeekdayOccurrences (year : Int) (month weekday : Nat) : List Nat :=
  (List.range' 1 31).filter fun day =>
    decide (day ≤ daysInMonth year month) &&
      weekdayOfDays (daysFromCivil year month day) == (weekday : Int)

/-- Day-of-month of the `n`-th occurrence of `weekday` in `month` of
`year` (the source's `count === n` hit; `n = 0` can never be hit because
the counter starts at 1). -/
def nthWeekdayAnchorDay (year : Int) (month weekday n : Nat) : Option Nat :=
  if n = 0 then none else (nthWeekdayOccurrences year month weekday)[n - 1]?

/-- The `isNthWeekdayActive` evaluator from the source, with the `duration` argument
already defaulted (`rule.duration || 1`).  With `duration > 1` the match
is a window centred on the anchor; otherwise it is an exact calendar-day
match (`toDateString` equality — the year field always agrees because the
anchor is built from the target's own year). -/
def isNthWeekdayActive (month weekday n duration : Nat) (dt : CivilDate) : Bool :=
  match nthWeekdayAnchorDay dt.year month weekday n with
  | none => false
  | some d0 =>
    if duration > 1 then
      let ad := daysFromCivil dt.year month d0
      let half : Int := (duration : Int).fdiv 2
      decide (ad - half ≤ dateToDays dt) &&
        decide (dateToDays dt ≤ ad + ((duration : Int) - half - 1))
    else
      dt.month == month && dt.day == d0

/-! ## Data model -/

/-- The `DateRule` tagged union. -/
inductive DateRule where
  | range («from» «to» : String)
  | holidayOffset (holiday : String) (start «end» : Int)
  | nthWeekday (month weekday n : Nat) (duration : Option Nat)
  | always
deriving DecidableEq, Repr

/-- Metadata attached to a `ThemeRule` (`ThemeRule.metadata`). -/
structure ThemeMetadata where
  actualDate : Option String
  description : Option String
deriving DecidableEq, Repr

/-- A `ThemeRule` catalog entry. -/
structure ThemeRule where
  name : String
  rule : DateRule
  enabled : Option Bool
  region : Option (List String)
  metadata : Option ThemeMetadata
deriving DecidableEq, Repr

/-- The four catalog categories. -/
inductive Category where
  | seasonal
  | holidays
  | cultural
  | everyday
deriving DecidableEq, Repr

/-- The injected rule catalog (`ThemeRulesConfig`). -/
structure ThemeRulesConfig where
  seasonal : List ThemeRule
  holidays : List ThemeRule
  cultural : List ThemeRule
  everyday : List ThemeRule
deriving DecidableEq, Repr

/-- Options passed by the caller (`ResolverOptions`). -/
structure ResolverOptions where
  enabledCultures : List String
  userRegion : Option String
deriving DecidableEq, Repr

/-- A `ResolvedTheme` output entry. -/
structure ResolvedTheme where
  name : String
  category : Category
  rule : DateRule
  metadata : Option ThemeMetadata
deriving DecidableEq, Repr

/-- A catalog rule tagged with its source category (the engine's spread
`{ ...rule, category }`). -/
structure TaggedRule where
  base : ThemeRule
  category : Category
deriving DecidableEq, Repr

/-- Defaulting of the optional `nth-weekday` duration with
`rule.duration || 1` (an explicit `0` is falsy and also becomes 1). -/
def jsOr1 : Option Nat → Nat
  | none => 1
  | some 0 => 1
  | some d => d

/-- The `isRuleActive` dispatcher from the source. -/
def isRuleActive (rule : DateRule) (dt : CivilDate) (year : Int) : Bool :=
  match rule with
  | .range f t => isInRange f t dt
  | .holidayOffset h s e => isHolidayOffsetActive h s e dt year
  | .nthWeekday m w n dur => isNthWeekdayActive m w n (jsOr1 dur) dt
  | .always => true

/-! ## Duration estimator

A sort key is `Option (WithTop Int)`: `none` models a `NaN` duration
(malformed `MM-DD` data), `some ⊤` models `Infinity`, `some n` a finite
day count. -/

/-- JavaScript's `String.prototype.split('-')` on the character list. -/
def splitDash : List Char → List (List Char)
  | [] => [[]]
  | c :: rest =>
    let r := splitDash rest
    if c = '-' then [] :: r
    else
      match r with
      | h :: t => (c :: h) :: t
      | [] => [[c]]

/-- JavaScript `Number(...)` on the strings produced by splitting a
month-day string at `'-'`: the empty string is 0, a digit string is its
value, anything else is `NaN` (`none`). -/
def jsNum? (cs : List Char) : Option Int :=
  if cs.isEmpty then some 0
  else if cs.all Char.isDigit then
    some ((cs.foldl (fun n c => n * 10 + (c.toNat - 48)) 0 : Nat) : Int)
  else none

/-- Destructuring of `rule.from.split('-').map(Number)` into its first two
components; `none` when either is `NaN` (including a missing second
component, which JavaScript reads as `Number(undefined)`). -/
def parseMonthDay (s : String) : Option (Int × Int) :=
  match splitDash s.data with
  | p0 :: p1 :: _ =>
    match jsNum? p0, jsNum? p1 with
    | some m, some d => some (m, d)
    | _, _ => none
  | _ => none

/-- The `getThemeDuration` estimator from the source.  For a `range` rule the two
month-day pairs are instantiated in the reference year, the end date is
pushed into the next year with `setFullYear(year + 1)` when it precedes
the start (keeping its normalised month/day fields), and the duration is
the inclusive day count.  `holiday-offset` is `abs(end - start) + 1`,
`nth-weekday` is `duration || 1`, `always` is `Infinity`. -/
def getThemeDuration (rule : DateRule) (year : Int) : Option (WithTop Int) :=
  match rule with
  | .range f t =>
    match parseMonthDay f, parseMonthDay t with
    | some (fm, fd), some (tm, td) =>
      let startD := jsMakeDay year fm fd
      let endD := jsMakeDay year tm td
      let endD2 :=
        if endD < startD then
          let c := civilFromDays endD
          jsMakeDay (year + 1) c.2.1 c.2.2
        else endD
      some ((endD2 - startD + 1 : Int) : WithTop Int)
    | _, _ => none
  | .holidayOffset _ s e => some ((|e - s| + 1 : Int) : WithTop Int)
  | .nthWeekday _ _ _ dur => some ((jsOr1 dur : Int) : WithTop Int)
  | .always => some ⊤

/-- The order the comparator `durationA - durationB` induces under
`Array.prototype.sort`: a negative difference keeps `a` first, `NaN`
(either operand `NaN`, or `Infinity - Infinity`) counts as a tie. -/
def durKeyLe (a b : Option (WithTop Int)) : Bool :=
  match a, b with
  | none, _ => true
  | _, none => true
  | some x, some y => decide (x ≤ y)

/-! ## Resolution engine -/

/-- Step 1 of `resolveThemesForDate`: flatten the catalog, tagging each
rule with its category. -/
def taggedRules (config : ThemeRulesConfig) : List TaggedRule :=
  config.seasonal.map (fun r => ⟨r, .seasonal⟩) ++
    config.holidays.map (fun r => ⟨r, .holidays⟩) ++
    config.cultural.map (fun r => ⟨r, .cultural⟩) ++
    config.everyday.map (fun r => ⟨r, .everyday⟩)

/-- The availability filter: the entry named `everyday` is reserved for
the fallback; `enabled` unset or `true` always passes; `enabled === false`
passes only via `enabledCultures` or a region match (the
source's `rule.region && userRegion && rule.region.includes(userRegion)`,
where an empty `userRegion` string is falsy). -/
def availableFilter (opts : ResolverOptions) (tr : TaggedRule) : Bool :=
  if tr.base.name == "everyday" then false
  else
    match tr.base.enabled with
    | none => true
    | some true => true
    | some false =>
      opts.enabledCultures.contains tr.base.name ||
        match tr.base.region, opts.userRegion with
        | some rg, some u => !(u == "") && rg.contains u
        | _, _ => false

def availableRules (config : ThemeRulesConfig) (opts : ResolverOptions) :
    List TaggedRule :=
  (taggedRules config).filter (availableFilter opts)

/-- The projection pushed for each active rule. -/
def toResolved (tr : TaggedRule) : ResolvedTheme :=
  ⟨tr.base.name, tr.category, tr.base.rule, tr.base.metadata⟩

/-- The unsorted match list collected by the evaluation loop. -/
def matchingThemes (config : ThemeRulesConfig) (dt : CivilDate)
    (opts : ResolverOptions) : List ResolvedTheme :=
  ((availableRules config opts).filter fun tr =>
      isRuleActive tr.base.rule dt dt.year).map toResolved

/-- The comparator's duration key: the matched name is looked up in the
flattened catalog (`allRules.find(r => r.name === a.name)!`); the lookup
always succeeds for a name produced by the match loop, and the `none`
default is dead code standing in for the non-null assertion. -/
def sortKey (allR : List TaggedRule) (year : Int) (t : ResolvedTheme) :
    Option (WithTop Int) :=
  match allR.find? (fun r => r.base.name == t.name) with
  | some r => getThemeDuration r.base.rule year
  | none => none

/-- The sort comparator as a relation (JavaScript's sort is stable, so a
stable insertion sort over the tie-inclusive `≤` models it exactly
whenever the comparator is consistent). -/
def sortRel (allR : List TaggedRule) (year : Int)
    (a b : ResolvedTheme) : Prop :=
  durKeyLe (sortKey allR year a) (sortKey allR year b) = true

instance (allR : List TaggedRule) (year : Int) :
    DecidableRel (sortRel allR year) := fun _ _ => by
  unfold sortRel; infer_instance

/-- The engine entry point `resolveThemesForDate` from the source: filter, evaluate, stable-sort
by duration, and fall back to the catalog's `everyday` entry when nothing
matched. -/
def resolveThemesForDate (config : ThemeRulesConfig) (dt : CivilDate)
    (opts : ResolverOptions) : List ResolvedTheme :=
  match List.insertionSort (sortRel (taggedRules config) dt.year)
      (matchingThemes config dt opts) with
  | [] =>
    match config.everyday.find? (fun r => r.name == "everyday") with
    | some r => [⟨"everyday", .everyday, r.rule, r.metadata⟩]
    | none => []
  | t :: sortedRest => t :: sortedRest

/-- The `resolvePrimaryThemeForDate` entry point from the source. -/
def resolvePrimaryThemeForDate (config : ThemeRulesConfig) (dt : CivilDate)
    (opts : ResolverOptions) : Option ResolvedTheme :=
  match resolveThemesForDate config dt opts with
  | [] => none
  | t :: _ => some t

/-! ## Auxiliary predicates used by the theorems -/

/-- The catalog invariant of the spec (§3): rule names are unique across
the whole flattened catalog. -/
def uniqueNames (config : ThemeRulesConfig) : Prop :=
  ((taggedRules config).map fun tr => tr.base.name).Nodup

/-- Validated catalog data (spec §7): every rule's duration against the
reference year is a number, i.e. no `range` rule has malformed `MM-DD`
strings producing a `NaN` duration. -/
def durationsDefined (config : ThemeRulesConfig) (year : Int) : Prop :=
  ∀ tr ∈ taggedRules config, getThemeDuration tr.base.rule year ≠ none

instance (config : ThemeRulesConfig) : Decidable (uniqueNames config) := by
  unfold uniqueNames
  infer_instance

instance (config : ThemeRulesConfig) (year : Int) :
    Decidable (durationsDefined config year) := by
  unfold durationsDefined
  infer_instance

/-- Modelled from the claim wording of C3 (not from the source): a
holiday-offset rule read as the inclusive window
`[holidayDate + min(start, end), holidayDate + max(start, end)]` around
the computed Easter date. -/
def specMinMaxHolidayWindow (startOffset endOffset : Int) (dt : CivilDate)
    (year : Int) : Bool :=
  decide (easterDays year + min startOffset endOffset ≤ dateToDays dt) &&
    decide (dateToDays dt ≤ easterDays year + max startOffset endOffset)

/-- A small concrete catalog used to witness the engine-level theorems on
explicit inputs. -/
def sampleConfig : ThemeRulesConfig :=
  { seasonal := [⟨"winter", .range "12-01" "02-28", none, none, none⟩,
                 ⟨"christmas", .range "12-20" "12-27", none, none, none⟩],
    holidays := [⟨"easter", .holidayOffset "easter" (-2) 1, none, none, none⟩,
                 ⟨"thanksgiving", .nthWeekday 11 4 4 (some 1), none, none, none⟩],
    cultural := [⟨"diwali", .range "10-18" "10-23", some false, some ["india"], none⟩],
    everyday := [⟨"everyday", .always, none, none, none⟩] }

/-- Options with no enabled cultures and no region. -/
def emptyOptions : ResolverOptions := ⟨[], none⟩

end ThemeResolver

namespace ThemeResolver

/-! ## Claims C6, C4, C3, C9, C5 -/

/-- Claim C6: the Easter calculator, with exact integer floor-division
arithmetic per the Gregorian (Gauss/Meeus-style) algorithm, returns
March 31 for 2024, April 20 for 2025 and April 5 for 2026. -/
theorem claim_C6_easter_reference_years :
    calculateEaster 2024 = (3, 31) ∧ calculateEaster 2025 = (4, 20) ∧
      calculateEaster 2026 = (4, 5) := by
  refine ⟨?_, ?_, ?_⟩ <;> decide

/-- Claim C4: a `range` rule compares the target's zero-padded `MM-DD`
string lexicographically: for `from <= to` it is active iff
`from <= MM-DD <= to`, for `from > to` iff `MM-DD >= from` or
`MM-DD <= to`; the rule `{from: 12-26, to: 01-07}` is active on
2025-12-31 and 2026-01-03 and inactive on 2025-06-15. -/
theorem claim_C4_range_rule :
    (∀ f t dt, strLe f t = true →
      (isInRange f t dt = true ↔
        (strLe f (mmdd dt) = true ∧ strLe (mmdd dt) t = true))) ∧
    (∀ f t dt, strLe f t = false →
      (isInRange f t dt = true ↔
        (strLe f (mmdd dt) = true ∨ strLe (mmdd dt) t = true))) ∧
    isInRange "12-26" "01-07" ⟨2025, 12, 31⟩ = true ∧
    isInRange "12-26" "01-07" ⟨2026, 1, 3⟩ = true ∧
    isInRange "12-26" "01-07" ⟨2025, 6, 15⟩ = false := by
  refine ⟨?_, ?_, by decide, by decide, by decide⟩
  · intro f t dt h
    simp [isInRange, h]
  · intro f t dt h
    simp [isInRange, h]

/-- Witness for C4's conditional parts at concrete inputs. -/
theorem claim_C4_range_rule_witness :
    strLe "01-01" "02-01" = true ∧
      (isInRange "01-01" "02-01" ⟨2025, 1, 15⟩ = true ↔
        (strLe "01-01" (mmdd ⟨2025, 1, 15⟩) = true ∧
          strLe (mmdd ⟨2025, 1, 15⟩) "02-01" = true)) :=
  ⟨by decide, claim_C4_range_rule.1 "01-01" "02-01" ⟨2025, 1, 15⟩ (by decide)⟩

/-- Claim C3, counterexample: the claim's min/max window predicts the
rule `{holiday: easter, start: 0, end: -2}` to be active on 2025-04-19
(inside `[Easter - 2, Easter]`), but the source compares against
`holidayDate + start` and `holidayDate + end` directly, so the window is
empty and the rule is inactive. -/
theorem claim_C3_counterexample :
    specMinMaxHolidayWindow 0 (-2) ⟨2025, 4, 19⟩ 2025 = true ∧
      isHolidayOffsetActive "easter" 0 (-2) ⟨2025, 4, 19⟩ 2025 = false := by
  constructor <;> decide

/-- Claim C3, amended: a holiday-offset rule with the supported holiday
`easter` is active iff the target date lies in the inclusive window
`[holidayDate + start, holidayDate + end]` (empty when `start > end`);
the rule `{holiday: easter, start: -2, end: 0}` in 2025 is active on
2025-04-18, 2025-04-19, 2025-04-20 and inactive on 2025-04-21. -/
theorem claim_C3_amended_holiday_offset_window :
    (∀ (s e : Int) (dt : CivilDate) (y : Int),
      isHolidayOffsetActive "easter" s e dt y = true ↔
        (easterDays y + s ≤ dateToDays dt ∧ dateToDays dt ≤ easterDays y + e)) ∧
    isHolidayOffsetActive "easter" (-2) 0 ⟨2025, 4, 18⟩ 2025 = true ∧
    isHolidayOffsetActive "easter" (-2) 0 ⟨2025, 4, 19⟩ 2025 = true ∧
    isHolidayOffsetActive "easter" (-2) 0 ⟨2025, 4, 20⟩ 2025 = true ∧
    isHolidayOffsetActive "easter" (-2) 0 ⟨2025, 4, 21⟩ 2025 = false := by
  refine ⟨?_, by decide, by decide, by decide, by decide⟩
  intro s e dt y
  simp [isHolidayOffsetActive]

/-- Claim C9: a holiday-offset rule whose holiday identifier is not a
supported calculator (anything other than `easter`) evaluates as inactive
for every date, both at the evaluator and through `isRuleActive`
(evaluation stays total; no fault is propagated). -/
theorem claim_C9_unknown_holiday_inactive (h : String) (hne : h ≠ "easter")
    (s e : Int) (dt : CivilDate) (y : Int) :
    isHolidayOffsetActive h s e dt y = false ∧
      isRuleActive (.holidayOffset h s e) dt y = false := by
  have hbase : isHolidayOffsetActive h s e dt y = false := by
    unfold isHolidayOffsetActive
    split
    · exact absurd rfl hne
    · rfl
  exact ⟨hbase, hbase⟩

/-- Claim C5: an `nth-weekday` rule anchors on the `n`-th occurrence of
the weekday in the month of the target's year; with fewer than `n`
occurrences it is inactive; with duration absent or 1 it is active only
on the anchor day; with duration `> 1` it is active exactly on the
inclusive window `floor(duration/2)` days before the anchor to
`duration - floor(duration/2) - 1` days after; the 4th Thursday of
November 2025 is 2025-11-27 and a duration-1 rule is active in 2025 only
on that date. -/
theorem claim_C5_nth_weekday :
    (∀ (m w n dur : Nat) (dt : CivilDate),
      (nthWeekdayOccurrences dt.year m w).length < n →
      isNthWeekdayActive m w n dur dt = false) ∧
    (∀ (m w n : Nat) (dt : CivilDate),
      isRuleActive (.nthWeekday m w n none) dt dt.year =
        isNthWeekdayActive m w n 1 dt) ∧
    (∀ (m w n : Nat) (dt : CivilDate) (d0 : Nat),
      nthWeekdayAnchorDay dt.year m w n = some d0 →
      (isNthWeekdayActive m w n 1 dt = true ↔ (dt.month = m ∧ dt.day = d0))) ∧
    (∀ (m w n dur : Nat) (dt : CivilDate) (d0 : Nat), 1 < dur →
      nthWeekdayAnchorDay dt.year m w n = some d0 →
      (isNthWeekdayActive m w n dur dt = true ↔
        (daysFromCivil dt.year m d0 - (dur : Int).fdiv 2 ≤ dateToDays dt ∧
          dateToDays dt ≤
            daysFromCivil dt.year m d0 + ((dur : Int) - (dur : Int).fdiv 2 - 1)))) ∧
    nthWeekdayAnchorDay 2025 11 4 4 = some 27 ∧
    (∀ (m d : Nat),
      isNthWeekdayActive 11 4 4 1 ⟨2025, m, d⟩ = true ↔ (m = 11 ∧ d = 27)) := by
  refine ⟨?_, ?_, ?_, ?_, by decide, ?_⟩
  · intro m w n dur dt hlt
    have hn : n ≠ 0 := by omega
    have hanchor : nthWeekdayAnchorDay dt.year m w n = none := by
      unfold nthWeekdayAnchorDay
      rw [if_neg hn]
      exact List.getElem?_eq_none (by omega)
    simp [isNthWeekdayActive, hanchor]
  · intro m w n dt
    rfl
  · intro m w n dt d0 h
    simp [isNthWeekdayActive, h, Bool.and_eq_true, beq_iff_eq]
  · intro m w n dur dt d0 hdur h
    simp [isNthWeekdayActive, h, hdur, Bool.and_eq_true, decide_eq_true_eq]
  · have ha : nthWeekdayAnchorDay (2025 : Int) 11 4 4 = some 27 := by decide
    intro m d
    simp [isNthWeekdayActive, ha, Bool.and_eq_true, beq_iff_eq]

/-- Witness for C5: November 2025 has only four Thursdays, so a
5th-Thursday rule is inactive. -/
theorem claim_C5_nth_weekday_witness :
    (nthWeekdayOccurrences (2025 : Int) 11 4).length < 5 ∧
      isNthWeekdayActive 11 4 5 1 ⟨2025, 11, 27⟩ = false :=
  ⟨by decide, claim_C5_nth_weekday.1 11 4 5 1 ⟨2025, 11, 27⟩ (by decide)⟩

/-- Witness for C9 with the unsupported identifier `christmas`. -/
theorem claim_C9_unknown_holiday_inactive_witness :
    "christmas" ≠ "easter" ∧
      (isHolidayOffsetActive "christmas" (-1) 1 ⟨2025, 12, 25⟩ 2025 = false ∧
        isRuleActive (.holidayOffset "christmas" (-1) 1) ⟨2025, 12, 25⟩ 2025 = false) :=
  ⟨by decide,
    claim_C9_unknown_holiday_inactive "christmas" (by decide) (-1) 1 ⟨2025, 12, 25⟩ 2025⟩

/-! ## Helper lemmas for the engine-level claims -/

/-- An empty match list forces an empty stable-sorted list and
conversely. -/
theorem insertionSort_eq_nil_iff (r : ResolvedTheme → ResolvedTheme → Prop)
    [DecidableRel r] (l : List ResolvedTheme) :
    List.insertionSort r l = [] ↔ l = [] := by
  constructor
  · intro h
    have hlen := List.length_insertionSort r l
    rw [h] at hlen
    exact List.eq_nil_of_length_eq_zero hlen.symm
  · intro h
    rw [h]
    rfl

/-- Every rule of the flat catalog tagged from one of the four lists is a
member of `taggedRules`. -/
theorem mem_taggedRules_of_mem_catalog (config : ThemeRulesConfig)
    (r : ThemeRule)
    (hr : r ∈ config.seasonal ++ config.holidays ++ config.cultural ++
      config.everyday) :
    ∃ cat, (⟨r, cat⟩ : TaggedRule) ∈ taggedRules config := by
  unfold taggedRules
  simp only [List.mem_append] at hr ⊢
  rcases hr with ((h | h) | h) | h
  · exact ⟨.seasonal, Or.inl (Or.inl (Or.inl (List.mem_map.mpr ⟨r, h, rfl⟩)))⟩
  · exact ⟨.holidays, Or.inl (Or.inl (Or.inr (List.mem_map.mpr ⟨r, h, rfl⟩)))⟩
  · exact ⟨.cultural, Or.inl (Or.inr (List.mem_map.mpr ⟨r, h, rfl⟩))⟩
  · exact ⟨.everyday, Or.inr (List.mem_map.mpr ⟨r, h, rfl⟩)⟩

/-- Unfolding of membership in the match list. -/
theorem mem_matchingThemes_iff (config : ThemeRulesConfig) (dt : CivilDate)
    (opts : ResolverOptions) (t : ResolvedTheme) :
    t ∈ matchingThemes config dt opts ↔
      ∃ tr ∈ taggedRules config, availableFilter opts tr = true ∧
        isRuleActive tr.base.rule dt dt.year = true ∧ toResolved tr = t := by
  unfold matchingThemes availableRules
  constructor
  · intro h
    rcases List.mem_map.mp h with ⟨tr, htr, hres⟩
    rcases List.mem_filter.mp htr with ⟨htr2, hact⟩
    rcases List.mem_filter.mp htr2 with ⟨htag, hav⟩
    exact ⟨tr, htag, hav, hact, hres⟩
  · intro ⟨tr, htag, hav, hact, hres⟩
    exact List.mem_map.mpr
      ⟨tr, List.mem_filter.mpr ⟨List.mem_filter.mpr ⟨htag, hav⟩, hact⟩, hres⟩

/-! ## Claims C2, C8, C10, C7 -/

/-- Claim C2: when the catalog's `everyday` list holds exactly the
fallback entry (the spec's catalog invariant) and no available candidate
rule is active for the date, `resolveThemesForDate` returns exactly one
entry, named `everyday`, projected from the fallback entry. -/
theorem claim_C2_fallback_when_nothing_active (config : ThemeRulesConfig)
    (dt : CivilDate) (opts : ResolverOptions) (ever : ThemeRule)
    (hev : config.everyday = [ever]) (hname : ever.name = "everyday")
    (hno : ∀ tr ∈ availableRules config opts,
      isRuleActive tr.base.rule dt dt.year = false) :
    resolveThemesForDate config dt opts =
      [⟨"everyday", .everyday, ever.rule, ever.metadata⟩] := by
  have hmatch : matchingThemes config dt opts = [] := by
    unfold matchingThemes
    rw [List.filter_eq_nil_iff.mpr (by intro a ha; simp [hno a ha])]
    rfl
  unfold resolveThemesForDate
  rw [hmatch]
  simp [hev, List.find?, hname]

/-- Witness for C2: the sample catalog on 2025-06-15 (no rule active)
returns the single `everyday` fallback. -/
theorem claim_C2_fallback_when_nothing_active_witness :
    (∀ tr ∈ availableRules sampleConfig emptyOptions,
      isRuleActive tr.base.rule ⟨2025, 6, 15⟩
        (CivilDate.mk 2025 6 15).year = false) ∧
      resolveThemesForDate sampleConfig ⟨2025, 6, 15⟩ emptyOptions =
        [⟨"everyday", .everyday, .always, none⟩] :=
  ⟨by decide,
    claim_C2_fallback_when_nothing_active sampleConfig ⟨2025, 6, 15⟩
      emptyOptions ⟨"everyday", .always, none, none, none⟩ rfl rfl (by decide)⟩

/-- Claim C8: `resolvePrimaryThemeForDate` is the head of
`resolveThemesForDate`'s result (`none` on an empty list), and the list
is empty exactly when nothing matched and the catalog's `everyday` list
has no entry named `everyday`; both functions are total, so the
degenerate configuration cannot raise. -/
theorem claim_C8_primary_head_and_empty_characterisation
    (config : ThemeRulesConfig) (dt : CivilDate) (opts : ResolverOptions) :
    resolvePrimaryThemeForDate config dt opts =
      (resolveThemesForDate config dt opts).head? ∧
    (resolveThemesForDate config dt opts = [] ↔
      (matchingThemes config dt opts = [] ∧
        ∀ r ∈ config.everyday, r.name ≠ "everyday")) := by
  constructor
  · cases h : resolveThemesForDate config dt opts <;>
      simp [resolvePrimaryThemeForDate, h]
  · unfold resolveThemesForDate
    cases hs : List.insertionSort (sortRel (taggedRules config) dt.year)
        (matchingThemes config dt opts) with
    | nil =>
      have hm : matchingThemes config dt opts = [] :=
        (insertionSort_eq_nil_iff _ _).mp hs
      cases hf : config.everyday.find? (fun r => r.name == "everyday") with
      | none =>
        rw [List.find?_eq_none] at hf
        simp only [hm, true_and]
        constructor
        · intro _ r hr
          simpa using hf r hr
        · intro _
          trivial
      | some r =>
        have hmem := List.mem_of_find?_eq_some hf
        have hp := List.find?_some hf
        simp only [beq_iff_eq] at hp
        simp only [hm, true_and]
        constructor
        · intro h
          exact absurd h (by simp)
        · intro hall
          exact absurd hp (hall r hmem)
    | cons a rest =>
      have hne : matchingThemes config dt opts ≠ [] := by
        intro hm
        rw [(insertionSort_eq_nil_iff _ _).mpr hm] at hs
        exact List.noConfusion hs
      simp [hne]

/-- Claim C10: candidacy exclusion and fallback lookup key on the literal
name `everyday`: a rule so named never passes the availability filter in
any category; without an `everyday`-named entry in the everyday list the
result is just the sorted matches (no fallback); with one, an empty match
list yields exactly its projection; and an everyday-list rule under any
other name is an ordinary candidate evaluated against the date. -/
theorem claim_C10_everyday_is_name_keyed :
    (∀ (opts : ResolverOptions) (tr : TaggedRule),
      tr.base.name = "everyday" → availableFilter opts tr = false) ∧
    (∀ (config : ThemeRulesConfig) (dt : CivilDate) (opts : ResolverOptions),
      (∀ r ∈ config.everyday, r.name ≠ "everyday") →
      resolveThemesForDate config dt opts =
        List.insertionSort (sortRel (taggedRules config) dt.year)
          (matchingThemes config dt opts)) ∧
    (∀ (config : ThemeRulesConfig) (dt : CivilDate) (opts : ResolverOptions)
      (r : ThemeRule),
      config.everyday.find? (fun x => x.name == "everyday") = some r →
      matchingThemes config dt opts = [] →
      resolveThemesForDate config dt opts =
        [⟨"everyday", .everyday, r.rule, r.metadata⟩]) ∧
    (∀ (config : ThemeRulesConfig) (dt : CivilDate) (opts : ResolverOptions)
      (r : ThemeRule), r ∈ config.everyday →
      r.name ≠ "everyday" → r.enabled ≠ some false →
      (⟨r, .everyday⟩ : TaggedRule) ∈ availableRules config opts ∧
      (isRuleActive r.rule dt dt.year = true →
        toResolved ⟨r, .everyday⟩ ∈ matchingThemes config dt opts)) := by
  refine ⟨?_, ?_, ?_, ?_⟩
  · intro opts tr h
    unfold availableFilter
    simp [h]
  · intro config dt opts hno
    unfold resolveThemesForDate
    cases hs : List.insertionSort (sortRel (taggedRules config) dt.year)
        (matchingThemes config dt opts) with
    | nil =>
      rw [List.find?_eq_none.mpr (by intro r hr; simpa using hno r hr)]
    | cons a rest => rfl
  · intro config dt opts r hf hm
    unfold resolveThemesForDate
    rw [hm]
    simp [hf]
  · intro config dt opts r hr hname hen
    have hmem : (⟨r, .everyday⟩ : TaggedRule) ∈ taggedRules config := by
      unfold taggedRules
      simp only [List.mem_append]
      exact Or.inr (List.mem_map.mpr ⟨r, hr, rfl⟩)
    have hav : availableFilter opts ⟨r, .everyday⟩ = true := by
      unfold availableFilter
      rw [if_neg (by simpa using hname)]
      cases he : r.enabled with
      | none => rfl
      | some b =>
        cases b with
        | true => rfl
        | false => exact absurd he hen
    refine ⟨List.mem_filter.mpr ⟨hmem, hav⟩, ?_⟩
    intro hact
    exact (mem_matchingThemes_iff config dt opts _).mpr
      ⟨⟨r, .everyday⟩, hmem, hav, hact, rfl⟩

/-- Witness for C10 (third conjunct): the sample catalog on 2025-06-15
has an empty match list and emits its fallback entry. -/
theorem claim_C10_everyday_is_name_keyed_witness :
    sampleConfig.everyday.find? (fun x => x.name == "everyday") =
        some ⟨"everyday", .always, none, none, none⟩ ∧
      matchingThemes sampleConfig ⟨2025, 6, 15⟩ emptyOptions = [] ∧
      resolveThemesForDate sampleConfig ⟨2025, 6, 15⟩ emptyOptions =
        [⟨"everyday", .everyday, .always, none⟩] :=
  ⟨by decide, by decide,
    claim_C10_everyday_is_name_keyed.2.2.1 sampleConfig ⟨2025, 6, 15⟩
      emptyOptions ⟨"everyday", .always, none, none, none⟩ (by decide) (by decide)⟩

/-- Claim C7: under the catalog's unique-name invariant, a rule with
`enabled = false` whose name is not in the caller's `enabledCultures` and
whose region list does not contain the caller's `userRegion` never
appears in the result, even when its date rule is active (the name
`everyday` is reserved for the fallback entry and excluded from the
statement); rules with `enabled` unset or `true` always pass the
availability filter. -/
theorem claim_C7_disabled_rules_hidden :
    (∀ (config : ThemeRulesConfig) (dt : CivilDate) (opts : ResolverOptions)
      (r : ThemeRule),
      uniqueNames config →
      r ∈ config.seasonal ++ config.holidays ++ config.cultural ++
        config.everyday →
      r.enabled = some false →
      r.name ∉ opts.enabledCultures →
      (∀ u, opts.userRegion = some u → u ∉ r.region.getD []) →
      r.name ≠ "everyday" →
      ∀ t ∈ resolveThemesForDate config dt opts, t.name ≠ r.name) ∧
    (∀ (config : ThemeRulesConfig) (opts : ResolverOptions) (tr : TaggedRule),
      tr ∈ taggedRules config → tr.base.name ≠ "everyday" →
      tr.base.enabled ≠ some false → tr ∈ availableRules config opts) := by
  constructor
  · intro config dt opts r hu hr hen hc hreg hnev t ht heq
    have hfilter : ∀ cat : Category,
        availableFilter opts ⟨r, cat⟩ = false := by
      intro cat
      unfold availableFilter
      rw [if_neg (by simpa using hnev)]
      simp only [hen]
      have hcontains : opts.enabledCultures.contains r.name = false := by
        simp [hc]
      rw [hcontains]
      cases hrg : r.region with
      | none => rfl
      | some rg =>
        cases hur : opts.userRegion with
        | none => rfl
        | some u =>
          have hu2 : u ∉ rg := by
            have := hreg u hur
            rwa [hrg] at this
          simp [hu2]
    unfold resolveThemesForDate at ht
    split at ht
    · split at ht
      · rcases List.mem_singleton.mp ht with rfl
        exact hnev heq.symm
      · exact absurd ht (List.not_mem_nil t)
    · rename_i head tail hsort
      rw [← hsort] at ht
      have hmt : t ∈ matchingThemes config dt opts :=
        (List.mem_insertionSort _).mp ht
      rcases (mem_matchingThemes_iff config dt opts t).mp hmt with
        ⟨tr, htag, hav, _, hres⟩
      rcases mem_taggedRules_of_mem_catalog config r hr with ⟨cat, hcat⟩
      have hnames : tr.base.name = (⟨r, cat⟩ : TaggedRule).base.name := by
        have hname2 : tr.base.name = t.name := by rw [← hres]; rfl
        rw [hname2, heq]
      have htr_eq : tr = ⟨r, cat⟩ :=
        List.inj_on_of_nodup_map hu htag hcat hnames
      rw [htr_eq] at hav
      rw [hfilter cat] at hav
      exact Bool.false_ne_true hav
  · intro config opts tr htag hnev hen
    refine List.mem_filter.mpr ⟨htag, ?_⟩
    unfold availableFilter
    rw [if_neg (by simpa using hnev)]
    cases he : tr.base.enabled with
    | none => rfl
    | some b =>
      cases b with
      | true => rfl
      | false => exact absurd he hen

/-- Witness for C7: `diwali` in the sample catalog is `enabled = false`
with region `india`; with empty options it never appears on 2025-10-20
although its range rule is active there. -/
theorem claim_C7_disabled_rules_hidden_witness :
    uniqueNames sampleConfig ∧
      isRuleActive (.range "10-18" "10-23") ⟨2025, 10, 20⟩ 2025 = true ∧
      (∀ t ∈ resolveThemesForDate sampleConfig ⟨2025, 10, 20⟩ emptyOptions,
        t.name ≠ "diwali") :=
  ⟨by decide, by decide,
    claim_C7_disabled_rules_hidden.1 sampleConfig ⟨2025, 10, 20⟩ emptyOptions
      ⟨"diwali", .range "10-18" "10-23", some false, some ["india"], none⟩
      (by decide) (by decide) rfl (by decide)
      (by intro u hu2; simp [emptyOptions] at hu2) (by decide)⟩

/-! ## Stable-sort lemmas for claim C1

The JavaScript comparator `durationA - durationB` induces, on defined
(non-`NaN`) keys, the total preorder `k x ≤ k y` on `WithTop Int`; the
engine's sort is stable, so inserting each element behind strictly
smaller keys and in front of strictly larger ones while keeping ties in
input order characterises the output. -/

/-- Inserting an element that is `S`-before everything in a sorted list
preserves sortedness and tie-stability. -/
theorem pairwise_orderedInsert_key {α : Type} (r : α → α → Prop)
    [DecidableRel r] (k : α → WithTop Int) (S : α → α → Prop) (a : α) :
    ∀ l : List α,
      (∀ x ∈ l, r a x ↔ k a ≤ k x) →
      l.Pairwise (fun x y => k x ≤ k y ∧ (k y ≤ k x → S x y)) →
      (∀ x ∈ l, S a x) →
      (List.orderedInsert r a l).Pairwise
        (fun x y => k x ≤ k y ∧ (k y ≤ k x → S x y)) := by
  intro l
  induction l with
  | nil =>
    intro _ _ _
    simp
  | cons b l ih =>
    intro hra hQ hS
    rw [List.orderedInsert]
    rcases List.pairwise_cons.mp hQ with ⟨hQb, hQl⟩
    split_ifs with hab
    · refine List.Pairwise.cons ?_ hQ
      intro x hx
      rcases List.mem_cons.mp hx with h | hx
      · rw [h]
        exact ⟨(hra b (List.mem_cons_self b l)).mp hab,
          fun _ => hS b (List.mem_cons_self b l)⟩
      · refine ⟨le_trans ((hra b (List.mem_cons_self b l)).mp hab)
          (hQb x hx).1, fun _ => hS x (List.mem_cons_of_mem b hx)⟩
    · refine List.Pairwise.cons ?_
        (ih (fun x hx => hra x (List.mem_cons_of_mem b hx)) hQl
          (fun x hx => hS x (List.mem_cons_of_mem b hx)))
      intro x hx
      rcases (List.mem_orderedInsert r).mp hx with h | hx
      · rw [h]
        have hnle : ¬k a ≤ k b := fun hle =>
          hab ((hra b (List.mem_cons_self b l)).mpr hle)
        exact ⟨le_of_not_le hnle, fun hle => absurd hle hnle⟩
      · exact hQb x hx

/-- A stable insertion sort with a comparator agreeing with the key order
on the list produces a key-sorted list whose ties keep any
order-compatible relation `S` holding pairwise on the input. -/
theorem pairwise_insertionSort_key {α : Type} (r : α → α → Prop)
    [DecidableRel r] (k : α → WithTop Int) (S : α → α → Prop) :
    ∀ l : List α,
      (∀ x ∈ l, ∀ y ∈ l, r x y ↔ k x ≤ k y) →
      l.Pairwise S →
      (List.insertionSort r l).Pairwise
        (fun x y => k x ≤ k y ∧ (k y ≤ k x → S x y)) := by
  intro l
  induction l with
  | nil =>
    intro _ _
    simp
  | cons a l ih =>
    intro hra hS
    rw [List.insertionSort]
    rcases List.pairwise_cons.mp hS with ⟨hSa, hSl⟩
    refine pairwise_orderedInsert_key r k S a (List.insertionSort r l)
      ?_ ?_ ?_
    · intro x hx
      exact hra a (List.mem_cons_self a l) x
        (List.mem_cons_of_mem a ((List.mem_insertionSort r).mp hx))
    · exact ih (fun x hx y hy =>
        hra x (List.mem_cons_of_mem a hx) y (List.mem_cons_of_mem a hy)) hSl
    · intro x hx
      exact hSa x ((List.mem_insertionSort r).mp hx)

/-- Every list is pairwise ordered by the two-element-sublist relation on
itself. -/
theorem pairwise_pair_sublist {α : Type} :
    ∀ l : List α, l.Pairwise fun x y => [x, y].Sublist l := by
  intro l
  induction l with
  | nil => exact List.Pairwise.nil
  | cons a t ih =>
    refine List.Pairwise.cons ?_ (ih.imp fun h => h.cons a)
    intro x hx
    exact List.Sublist.cons₂ a (List.singleton_sublist.mpr hx)

/-- Under the unique-name invariant, the comparator's catalog lookup for
a matched entry recovers that entry's own rule, so the sort key is the
duration of the entry's own rule. -/
theorem sortKey_eq_own_duration (config : ThemeRulesConfig) (dt : CivilDate)
    (opts : ResolverOptions) (hu : uniqueNames config) (t : ResolvedTheme)
    (ht : t ∈ matchingThemes config dt opts) :
    sortKey (taggedRules config) dt.year t =
      getThemeDuration t.rule dt.year := by
  rcases (mem_matchingThemes_iff config dt opts t).mp ht with
    ⟨tr, htag, _, _, hres⟩
  have hteq : tr.base.name = t.name := by rw [← hres]; rfl
  unfold sortKey
  cases hfind : (taggedRules config).find? (fun r => r.base.name == t.name) with
  | none =>
    rw [List.find?_eq_none] at hfind
    exact absurd hteq (by simpa using hfind tr htag)
  | some r =>
    have hrmem := List.mem_of_find?_eq_some hfind
    have hrp := List.find?_some hfind
    simp only [beq_iff_eq] at hrp
    have hr_eq : r = tr :=
      List.inj_on_of_nodup_map hu hrmem htag (by rw [hrp, hteq])
    have hrule : tr.base.rule = t.rule := by rw [← hres]; rfl
    rw [hr_eq]
    show getThemeDuration tr.base.rule dt.year = getThemeDuration t.rule dt.year
    rw [hrule]

/-- Claim C1: for every catalog satisfying the spec's invariants (unique
rule names, no malformed range strings), the list `resolveThemesForDate`
returns is pairwise non-decreasing in each entry's computed duration
(`getThemeDuration` of its own rule against the target year, under the
comparator's `NaN`-tolerant order), and entries with equal duration
appear as a sublist of the match list, i.e. in their relative catalog
order (flattened seasonal, holidays, cultural, everyday order, within
each list in catalog order). -/
theorem claim_C1_result_sorted_by_duration (config : ThemeRulesConfig)
    (dt : CivilDate) (opts : ResolverOptions)
    (hu : uniqueNames config) (hd : durationsDefined config dt.year) :
    (resolveThemesForDate config dt opts).Pairwise fun a b =>
      durKeyLe (getThemeDuration a.rule dt.year)
          (getThemeDuration b.rule dt.year) = true ∧
        (getThemeDuration a.rule dt.year = getThemeDuration b.rule dt.year →
          [a, b].Sublist (matchingThemes config dt opts)) := by
  have hown : ∀ t ∈ matchingThemes config dt opts,
      sortKey (taggedRules config) dt.year t =
        getThemeDuration t.rule dt.year :=
    fun t ht => sortKey_eq_own_duration config dt opts hu t ht
  have hsome : ∀ t ∈ matchingThemes config dt opts,
      ∃ v, getThemeDuration t.rule dt.year = some v := by
    intro t ht
    rcases (mem_matchingThemes_iff config dt opts t).mp ht with
      ⟨tr, htag, _, _, hres⟩
    have hrule : tr.base.rule = t.rule := by rw [← hres]; rfl
    rcases hvd : getThemeDuration t.rule dt.year with _ | v
    · exact absurd (by rw [hrule]; exact hvd) (hd tr htag)
    · exact ⟨v, rfl⟩
  unfold resolveThemesForDate
  split
  · split
    · simp
    · simp
  · rename_i head tail hsort
    rw [← hsort]
    have hk : ∀ x ∈ matchingThemes config dt opts,
        ∀ y ∈ matchingThemes config dt opts,
        sortRel (taggedRules config) dt.year x y ↔
          (getThemeDuration x.rule dt.year).getD ⊤ ≤
            (getThemeDuration y.rule dt.year).getD ⊤ := by
      intro x hx y hy
      rcases hsome x hx with ⟨vx, hvx⟩
      rcases hsome y hy with ⟨vy, hvy⟩
      unfold sortRel
      rw [hown x hx, hown y hy, hvx, hvy]
      simp [durKeyLe]
    have hmain := pairwise_insertionSort_key
      (sortRel (taggedRules config) dt.year)
      (fun t => (getThemeDuration t.rule dt.year).getD ⊤)
      (fun x y => [x, y].Sublist (matchingThemes config dt opts))
      (matchingThemes config dt opts) hk
      (pairwise_pair_sublist (matchingThemes config dt opts))
    refine hmain.imp_of_mem ?_
    intro a b ha hb hQ
    have ha2 := (List.mem_insertionSort _).mp ha
    have hb2 := (List.mem_insertionSort _).mp hb
    rcases hsome a ha2 with ⟨va, hva⟩
    rcases hsome b hb2 with ⟨vb, hvb⟩
    have hQ1 : (getThemeDuration a.rule dt.year).getD ⊤ ≤
        (getThemeDuration b.rule dt.year).getD ⊤ := hQ.1
    have hQ2 : (getThemeDuration b.rule dt.year).getD ⊤ ≤
          (getThemeDuration a.rule dt.year).getD ⊤ →
        [a, b].Sublist (matchingThemes config dt opts) := hQ.2
    constructor
    · rw [hva, hvb] at hQ1 ⊢
      simp only [Option.getD_some] at hQ1
      simp [durKeyLe, hQ1]
    · intro heq
      refine hQ2 ?_
      rw [hva, hvb] at heq ⊢
      simp only [Option.getD_some]
      exact le_of_eq (by injection heq with h; rw [h])

/-- Witness for C1 on the sample catalog at Christmas 2025. -/
theorem claim_C1_result_sorted_by_duration_witness :
    uniqueNames sampleConfig ∧
      durationsDefined sampleConfig (CivilDate.mk 2025 12 25).year ∧
      (resolveThemesForDate sampleConfig ⟨2025, 12, 25⟩ emptyOptions).Pairwise
        (fun a b =>
          durKeyLe (getThemeDuration a.rule (CivilDate.mk 2025 12 25).year)
              (getThemeDuration b.rule (CivilDate.mk 2025 12 25).year) = true ∧
            (getThemeDuration a.rule (CivilDate.mk 2025 12 25).year =
                getThemeDuration b.rule (CivilDate.mk 2025 12 25).year →
              [a, b].Sublist
                (matchingThemes sampleConfig ⟨2025, 12, 25⟩ emptyOptions))) :=
  ⟨by decide, by decide,
    claim_C1_result_sorted_by_duration sampleConfig ⟨2025, 12, 25⟩
      emptyOptions (by decide) (by decide)⟩

end ThemeResolver
